import Mathlib

/-!
Verification of the HTML-to-Gutenberg-block converter of src/post.py
(class WordPressPublisher: methods html_to_gutenberg_blocks and clean_html).

The BeautifulSoup parses are modelled as oracles: the first parse of the
input document is summarised by the fields the code reads from it
(ParsedDoc), and the re-parse of the cleaned content is a parameter
producing the list of immediate children (text nodes and element nodes,
each with its serialised markup).  The two regular-expression
substitutions of clean_html and the Python str.strip are embedded as
executable character-list scanners faithful to the patterns
/<\/?body[^>]*>/i and /<script[^>]*>.*?<\/script>/is.
-/

/-- Python whitespace characters recognised by str.strip (ASCII part). -/
def isPySpace (c : Char) : Bool :=
  c = ' ' || c = '\t' || c = '\n' || c = '\r' || c = '\x0b' || c = '\x0c'

/-- Embedding of Python str.strip on a character list. -/
def pyStripL (l : List Char) : List Char :=
  ((l.dropWhile isPySpace).reverse.dropWhile isPySpace).reverse

/-- Embedding of Python str.strip on a string. -/
def pyStrip (s : String) : String :=
  String.mk (pyStripL s.data)

/-- Index of the first occurrence of the greater-than sign, if any.
Used to embed the regex fragment [^>]*> (greedy run of non-gt characters
followed by a closing angle bracket). -/
def findGt : List Char → Option Nat
  | [] => none
  | c :: t => if c = '>' then some 0 else (findGt t).map (· + 1)

/-- Match body[^>]*> (case-insensitive) at the front of the list; returns
the number of characters matched. -/
def bodyAfter (l : List Char) : Option Nat :=
  if (l.take 4).map Char.toLower = ['b', 'o', 'd', 'y'] then
    (findGt (l.drop 4)).map (fun i => 4 + i + 1)
  else none

/-- Match the whole pattern <\/?body[^>]*> (case-insensitive) at the front
of the list; returns the number of characters matched.  This is the
pattern removed by clean_html at src/post.py line 161. -/
def bodyTagLen (l : List Char) : Option Nat :=
  match l with
  | [] => none
  | c :: t =>
    if c = '<' then
      match t with
      | [] => none
      | d :: t2 =>
        if d = '/' then (bodyAfter t2).map (fun i => 2 + i)
        else (bodyAfter t).map (fun i => 1 + i)
    else none

/-- Index of the first occurrence of the literal </script> tag,
case-insensitively, if any. -/
def findClose : List Char → Option Nat
  | [] => none
  | c :: t =>
    if ((c :: t).take 9).map Char.toLower
        = ['<', '/', 's', 'c', 'r', 'i', 'p', 't', '>'] then some 0
    else (findClose t).map (· + 1)

/-- Match the whole pattern <script[^>]*>.*?<\/script> (case-insensitive,
dot matching newlines, lazy body) at the front of the list; returns the
number of characters matched.  This is the pattern removed by clean_html
at src/post.py line 164. -/
def scriptTagLen (l : List Char) : Option Nat :=
  match l with
  | [] => none
  | c :: t =>
    if c = '<' then
      if (t.take 6).map Char.toLower = ['s', 'c', 'r', 'i', 'p', 't'] then
        match findGt (t.drop 6) with
        | some i =>
          match findClose (l.drop (8 + i)) with
          | some j => some (8 + i + j + 9)
          | none => none
        | none => none
      else none
    else none

/-- One fuel-indexed pass of re.sub with empty replacement: scan left to
right, at each position try the matcher; on a match delete the matched
characters and continue after them, otherwise keep the character. -/
def subAux (m : List Char → Option Nat) : Nat → List Char → List Char
  | _, [] => []
  | 0, l => l
  | f + 1, c :: l =>
    match m (c :: l) with
    | some n => subAux m f ((c :: l).drop n)
    | none => c :: subAux m f l

/-- Embedding of re.sub(pattern, empty string, l) for a matcher that
consumes at least one character per match. -/
def reSub (m : List Char → Option Nat) (l : List Char) : List Char :=
  subAux m l.length l

/-- Embedding of WordPressPublisher.clean_html (src/post.py lines
157-171): strip body tags, remove whole script elements, leave style
elements untouched, and strip surrounding whitespace. -/
def clean_html (html : String) : String :=
  String.mk (pyStripL (reSub scriptTagLen (reSub bodyTagLen html.data)))

/-- An immediate child of the re-parsed cleaned content: either a bare
text node (a NavigableString) or an element with a tag name and its
serialised markup str(elem). -/
inductive HNode where
  | text (s : String)
  | elem (tag : String) (rendered : String)
deriving DecidableEq

/-- Embedding of the per-child classification in the loop at src/post.py
lines 108-148: the block emitted for one child, or none for a
whitespace-only text node (or an element with an empty name, which the
loop skips). -/
def nodeBlock : HNode → Option String
  | HNode.text s =>
    let text := pyStrip s
    if text = "" then none
    else some ("<!-- wp:paragraph -->" ++ "\n" ++ ("<p>" ++ text ++ "</p>")
      ++ "\n" ++ "<!-- /wp:paragraph -->")
  | HNode.elem tag rendered =>
    if tag = "" then none
    else if tag = "h1" ∨ tag = "h2" ∨ tag = "h3" ∨ tag = "h4" ∨ tag = "h5" ∨ tag = "h6" then
      some ("<!-- wp:heading \x7b\"level\":" ++ String.singleton (tag.data.getD 1 ' ')
        ++ "\x7d -->" ++ "\n" ++ rendered ++ "\n" ++ "<!-- /wp:heading -->")
    else if tag = "p" then
      some ("<!-- wp:paragraph -->" ++ "\n" ++ rendered ++ "\n" ++ "<!-- /wp:paragraph -->")
    else if tag = "img" then
      some ("<!-- wp:image -->" ++ "\n"
        ++ ("<figure class=\"wp-block-image\">" ++ rendered ++ "</figure>")
        ++ "\n" ++ "<!-- /wp:image -->")
    else if tag = "ul" ∨ tag = "ol" then
      some ("<!-- wp:list -->" ++ "\n" ++ rendered ++ "\n" ++ "<!-- /wp:list -->")
    else if tag = "blockquote" then
      some ("<!-- wp:quote -->" ++ "\n" ++ rendered ++ "\n" ++ "<!-- /wp:quote -->")
    else if tag = "pre" then
      some ("<!-- wp:code -->" ++ "\n" ++ rendered ++ "\n" ++ "<!-- /wp:code -->")
    else if tag = "table" then
      some ("<!-- wp:table -->" ++ "\n"
        ++ ("<figure class=\"wp-block-table\">" ++ rendered ++ "</figure>")
        ++ "\n" ++ "<!-- /wp:table -->")
    else
      some ("<!-- wp:html -->" ++ "\n" ++ rendered ++ "\n" ++ "<!-- /wp:html -->")

/-- Blocks appended by the child loop, in document order. -/
def emitBlocks (children : List HNode) : List String :=
  children.filterMap nodeBlock

/-- Embedding of the Python join with a two-newline separator at
src/post.py line 155. -/
def joinBlocks : List String → String
  | [] => ""
  | [b] => b
  | b :: c :: rest => b ++ "\n\n" ++ joinBlocks (c :: rest)

/-- Fields of the WordPressPublisher instance set by its constructor
(src/post.py lines 25-50); the converter reads and may write post_title. -/
structure Publisher where
  site : String
  user : String
  app_pass : String
  publish_status : String
  html_file : String
  post_title : String
  api_url : String
deriving DecidableEq

/-- The body element of the parsed document, as serialised by str(body):
an open tag with an attribute text (no closing angle bracket inside), the
inner markup, and the closing tag. -/
structure BodyElem where
  attrs : String
  inner : String
deriving DecidableEq

/-- Serialisation str(body) of a body element. -/
def BodyElem.render (b : BodyElem) : String :=
  "<body" ++ b.attrs ++ ">" ++ b.inner ++ "</body>"

/-- Oracle summarising the first BeautifulSoup parse of the input: the
text of the first title element if one exists, the text of the first h1
element if one exists, and the body element if one exists.  A present but
empty element is some with empty text, matching bs4 where a Tag is truthy
even when empty. -/
structure ParsedDoc where
  titleText? : Option String
  h1Text? : Option String
  body? : Option BodyElem

/-- Local wall-clock time at minute precision, as read by datetime.now. -/
structure LocalTime where
  year : Nat
  month : Nat
  day : Nat
  hour : Nat
  minute : Nat
deriving DecidableEq

/-- Zero-pad to two digits, as strftime does for the fields m, d, H, M. -/
def pad2 (n : Nat) : String :=
  if n < 10 then "0" ++ toString n else toString n

/-- Zero-pad to four digits, as strftime does for the field Y. -/
def pad4 (n : Nat) : String :=
  if n < 10 then "000" ++ toString n
  else if n < 100 then "00" ++ toString n
  else if n < 1000 then "0" ++ toString n
  else toString n

/-- Embedding of datetime.now().strftime(the format at src/post.py line
90): year-month-day space hour:minute. -/
def formatTime (t : LocalTime) : String :=
  pad4 t.year ++ "-" ++ pad2 t.month ++ "-" ++ pad2 t.day ++ " "
    ++ pad2 t.hour ++ ":" ++ pad2 t.minute

/-- The title cascade of src/post.py lines 79-90, entered when no title
was pre-supplied: title element text stripped, else first h1 text
stripped, else a timestamp string. -/
def derivedTitle (doc : ParsedDoc) (nowT : LocalTime) : String :=
  match doc.titleText? with
  | some t => pyStrip t
  | none =>
    match doc.h1Text? with
    | some t => pyStrip t
    | none => "Post from " ++ formatTime nowT

/-- The publisher state after the title-resolution step at src/post.py
lines 78-90: post_title is written only when it was empty. -/
def resolvePub (pub : Publisher) (doc : ParsedDoc) (nowT : LocalTime) : Publisher :=
  if pub.post_title = "" then { pub with post_title := derivedTitle doc nowT } else pub

/-- The cleaned working content of src/post.py lines 93-100: str(body)
when a body element exists, the whole input otherwise, passed through
clean_html. -/
def workingContent (doc : ParsedDoc) (html_content : String) : String :=
  clean_html (match doc.body? with
    | some b => b.render
    | none => html_content)

/-- The block list of src/post.py lines 102-152: one block per classified
child of the re-parsed cleaned content, with the single-fallback-block
case when the loop produced nothing. -/
def blocksOf (doc : ParsedDoc) (reparse : String → List HNode)
    (html_content : String) : List String :=
  let bs := emitBlocks (reparse (workingContent doc html_content))
  if bs = [] then
    ["<!-- wp:html -->" ++ "\n" ++ workingContent doc html_content ++ "\n" ++ "<!-- /wp:html -->"]
  else bs

/-- Embedding of WordPressPublisher.html_to_gutenberg_blocks (src/post.py
lines 68-155), returning the updated publisher state and the joined block
content. -/
def html_to_gutenberg_blocks (pub : Publisher) (doc : ParsedDoc)
    (reparse : String → List HNode) (nowT : LocalTime) (html_content : String) :
    Publisher × String :=
  (resolvePub pub doc nowT, joinBlocks (blocksOf doc reparse html_content))

/-- Definition following the words of the specification, step 3 and step
4: select the serialised inner markup of the body element (or the whole
input), remove body tags, remove script elements, and trim. -/
def workingContentSpec (doc : ParsedDoc) (html_content : String) : String :=
  let root := match doc.body? with
    | some b => b.inner
    | none => html_content
  String.mk (pyStripL (reSub scriptTagLen (reSub bodyTagLen root.data)))

/-- Well-formedness of serialised markup: every suffix beginning with an
opening angle bracket contains a closing angle bracket.  Serialised bs4
markup has this shape because angle brackets in text are escaped. -/
def innerOK : List Char → Bool
  | [] => true
  | c :: t => (if c = '<' then decide ('>' ∈ c :: t) else true) && innerOK t

/-- Characters up to and including the first newline are removed; used to
peel the opening block-comment line when re-parsing a block. -/
def afterFirstNl : List Char → List Char
  | [] => []
  | c :: t => if c = '\n' then t else afterFirstNl t

/-- Characters from the last newline on are removed; used to peel the
closing block-comment line when re-parsing a block. -/
def beforeLastNl (l : List Char) : List Char :=
  (afterFirstNl l.reverse).reverse

/-- Remove an exact wrapper from both ends of a list, when present. -/
def stripWrap (a b l : List Char) : List Char :=
  if l.take a.length = a ∧ l.drop (l.length - b.length) = b ∧ a.length + b.length ≤ l.length
  then (l.drop a.length).take (l.length - a.length - b.length)
  else l

/-- Definition following the words of the specification round-trip
property: re-parse an emitted block and extract the inner element markup,
by peeling the two block-comment marker lines and, for image and table
blocks, the figure container. -/
def blockInner (b : String) : String :=
  let core := beforeLastNl (afterFirstNl b.data)
  String.mk
    (if b.data.take 13 = "<!-- wp:image".data then
      stripWrap ("<figure class=\"wp-block-image\">").data ("</figure>").data core
    else if b.data.take 13 = "<!-- wp:table".data then
      stripWrap ("<figure class=\"wp-block-table\">").data ("</figure>").data core
    else core)

/-- Every body-tag match consumes at least one character. -/
theorem bodyTagLen_pos (l : List Char) (n : Nat) (h : bodyTagLen l = some n) : 1 ≤ n := by
  cases l with
  | nil => simp [bodyTagLen] at h
  | cons c t =>
    simp only [bodyTagLen] at h
    split at h
    · split at h
      · simp at h
      · split at h
        · obtain ⟨i, _, rfl⟩ := Option.map_eq_some'.mp h
          omega
        · obtain ⟨i, _, rfl⟩ := Option.map_eq_some'.mp h
          omega
    · simp at h

/-- Every script-element match consumes at least one character. -/
theorem scriptTagLen_pos (l : List Char) (n : Nat) (h : scriptTagLen l = some n) : 1 ≤ n := by
  cases l with
  | nil => simp [scriptTagLen] at h
  | cons c t =>
    simp only [scriptTagLen] at h
    split at h
    · split at h
      · split at h
        · split at h
          · simp only [Option.some.injEq] at h
            omega
          · simp at h
        · simp at h
      · simp at h
    · simp at h

/-- The fuel argument of subAux is irrelevant once it reaches the length
of the list, provided every match consumes at least one character. -/
theorem subAux_eq_of_le (m : List Char → Option Nat)
    (hm : ∀ l n, m l = some n → 1 ≤ n) :
    ∀ f₁ f₂ l, l.length ≤ f₁ → l.length ≤ f₂ → subAux m f₁ l = subAux m f₂ l := by
  intro f₁
  induction f₁ with
  | zero =>
    intro f₂ l h1 _
    have : l = [] := List.length_eq_zero.mp (Nat.le_zero.mp h1)
    subst this
    cases f₂ <;> simp [subAux]
  | succ f ih =>
    intro f₂ l h1 h2
    cases l with
    | nil => cases f₂ <;> simp [subAux]
    | cons c t =>
      cases f₂ with
      | zero => simp at h2
      | succ g =>
        simp only [subAux]
        cases hmc : m (c :: t) with
        | none =>
          simp only [List.length_cons] at h1 h2
          exact congrArg (c :: ·) (ih g t (by omega) (by omega))
        | some n =>
          have hn := hm _ _ hmc
          simp only [List.length_cons] at h1 h2
          exact ih g ((c :: t).drop n)
            (by simp [List.length_drop]; omega) (by simp [List.length_drop]; omega)

/-- Scan step of reSub on a match. -/
theorem reSub_cons_some (m : List Char → Option Nat)
    (hm : ∀ l n, m l = some n → 1 ≤ n) (c : Char) (l : List Char) (n : Nat)
    (h : m (c :: l) = some n) : reSub m (c :: l) = reSub m ((c :: l).drop n) := by
  have hn := hm _ _ h
  show subAux m (c :: l).length (c :: l) = _
  simp only [List.length_cons, subAux, h]
  exact subAux_eq_of_le m hm _ _ _ (by simp [List.length_drop]; omega)
    (by simp [List.length_drop])

/-- Scan step of reSub on a failed match. -/
theorem reSub_cons_none (m : List Char → Option Nat) (c : Char) (l : List Char)
    (h : m (c :: l) = none) : reSub m (c :: l) = c :: reSub m l := by
  show subAux m (c :: l).length (c :: l) = _
  simp only [List.length_cons, subAux, h]
  rfl

/-- Claim C1: every immediate child of the cleaned content contributes, in
document order, exactly the block its classification prescribes: trimmed
non-whitespace text in a paragraph element, headings with the level taken
from the digit of the tag name, paragraphs, images and tables in their
figure containers, lists, quotes, code, and a raw-HTML block for every
other element. -/
theorem c1_child_classification :
    (∀ pre n post, emitBlocks (pre ++ n :: post)
        = emitBlocks pre ++ (nodeBlock n).toList ++ emitBlocks post) ∧
    (∀ s : String, pyStrip s ≠ "" → nodeBlock (HNode.text s)
        = some ("<!-- wp:paragraph -->" ++ "\n" ++ ("<p>" ++ pyStrip s ++ "</p>")
            ++ "\n" ++ "<!-- /wp:paragraph -->")) ∧
    (∀ s : String, pyStrip s = "" → nodeBlock (HNode.text s) = none) ∧
    (∀ k : Nat, ∀ r : String, k ∈ [1, 2, 3, 4, 5, 6] →
        nodeBlock (HNode.elem ("h" ++ toString k) r)
          = some ("<!-- wp:heading \x7b\"level\":" ++ toString k ++ "\x7d -->"
              ++ "\n" ++ r ++ "\n" ++ "<!-- /wp:heading -->")) ∧
    (∀ r : String, nodeBlock (HNode.elem "p" r)
        = some ("<!-- wp:paragraph -->" ++ "\n" ++ r ++ "\n" ++ "<!-- /wp:paragraph -->")) ∧
    (∀ r : String, nodeBlock (HNode.elem "img" r)
        = some ("<!-- wp:image -->" ++ "\n"
            ++ ("<figure class=\"wp-block-image\">" ++ r ++ "</figure>")
            ++ "\n" ++ "<!-- /wp:image -->")) ∧
    (∀ t r : String, t = "ul" ∨ t = "ol" → nodeBlock (HNode.elem t r)
        = some ("<!-- wp:list -->" ++ "\n" ++ r ++ "\n" ++ "<!-- /wp:list -->")) ∧
    (∀ r : String, nodeBlock (HNode.elem "blockquote" r)
        = some ("<!-- wp:quote -->" ++ "\n" ++ r ++ "\n" ++ "<!-- /wp:quote -->")) ∧
    (∀ r : String, nodeBlock (HNode.elem "pre" r)
        = some ("<!-- wp:code -->" ++ "\n" ++ r ++ "\n" ++ "<!-- /wp:code -->")) ∧
    (∀ r : String, nodeBlock (HNode.elem "table" r)
        = some ("<!-- wp:table -->" ++ "\n"
            ++ ("<figure class=\"wp-block-table\">" ++ r ++ "</figure>")
            ++ "\n" ++ "<!-- /wp:table -->")) ∧
    (∀ t r : String, t ≠ "" →
        t ∉ ["h1", "h2", "h3", "h4", "h5", "h6", "p", "img", "ul", "ol",
             "blockquote", "pre", "table"] →
        nodeBlock (HNode.elem t r)
          = some ("<!-- wp:html -->" ++ "\n" ++ r ++ "\n" ++ "<!-- /wp:html -->")) := by
  refine ⟨?_, ?_, ?_, ?_, ?_, ?_, ?_, ?_, ?_, ?_, ?_⟩
  · intro pre n post
    simp only [emitBlocks, List.filterMap_append, List.filterMap_cons]
    cases nodeBlock n <;> simp
  · intro s h
    simp [nodeBlock, h]
  · intro s h
    simp [nodeBlock, h]
  · intro k r hk
    fin_cases hk
    · rw [show ("h" ++ toString (1 : Nat) : String) = "h1" by decide,
          show (toString (1 : Nat) : String) = "1" by decide]
      simp [nodeBlock, show String.singleton '1' = ("1" : String) from by decide]
    · rw [show ("h" ++ toString (2 : Nat) : String) = "h2" by decide,
          show (toString (2 : Nat) : String) = "2" by decide]
      simp [nodeBlock, show String.singleton '2' = ("2" : String) from by decide]
    · rw [show ("h" ++ toString (3 : Nat) : String) = "h3" by decide,
          show (toString (3 : Nat) : String) = "3" by decide]
      simp [nodeBlock, show String.singleton '3' = ("3" : String) from by decide]
    · rw [show ("h" ++ toString (4 : Nat) : String) = "h4" by decide,
          show (toString (4 : Nat) : String) = "4" by decide]
      simp [nodeBlock, show String.singleton '4' = ("4" : String) from by decide]
    · rw [show ("h" ++ toString (5 : Nat) : String) = "h5" by decide,
          show (toString (5 : Nat) : String) = "5" by decide]
      simp [nodeBlock, show String.singleton '5' = ("5" : String) from by decide]
    · rw [show ("h" ++ toString (6 : Nat) : String) = "h6" by decide,
          show (toString (6 : Nat) : String) = "6" by decide]
      simp [nodeBlock, show String.singleton '6' = ("6" : String) from by decide]
  · intro r; simp [nodeBlock]
  · intro r; simp [nodeBlock]
  · intro t r h
    rcases h with rfl | rfl <;> simp [nodeBlock]
  · intro r; simp [nodeBlock]
  · intro r; simp [nodeBlock]
  · intro r; simp [nodeBlock]
  · intro t r hne hmem
    simp only [List.mem_cons, List.not_mem_nil, or_false, not_or] at hmem
    obtain ⟨h1, h2, h3, h4, h5, h6, h7, h8, h9, h10, h11, h12, h13⟩ := hmem
    simp [nodeBlock, hne, h1, h2, h3, h4, h5, h6, h7, h8, h9, h10, h11, h12, h13]

/-- Witness for C1 at concrete children. -/
theorem c1_child_classification_witness :
    nodeBlock (HNode.text " hello ")
      = some ("<!-- wp:paragraph -->" ++ "\n" ++ ("<p>" ++ "hello" ++ "</p>")
          ++ "\n" ++ "<!-- /wp:paragraph -->") ∧
    nodeBlock (HNode.elem ("h" ++ toString 2) "<h2>T</h2>")
      = some ("<!-- wp:heading \x7b\"level\":" ++ toString 2 ++ "\x7d -->"
          ++ "\n" ++ "<h2>T</h2>" ++ "\n" ++ "<!-- /wp:heading -->") ∧
    nodeBlock (HNode.elem "div" "<div>x</div>")
      = some ("<!-- wp:html -->" ++ "\n" ++ "<div>x</div>" ++ "\n" ++ "<!-- /wp:html -->") := by
  refine ⟨?_, ?_, ?_⟩
  · have h := c1_child_classification.2.1 " hello " (by decide)
    rw [h]; decide
  · exact c1_child_classification.2.2.2.1 2 "<h2>T</h2>" (by decide)
  · exact c1_child_classification.2.2.2.2.2.2.2.2.2.2 "div" "<div>x</div>"
      (by decide) (by decide)

/-- Claim C2: when no title is pre-supplied the derived title comes from a
fixed cascade: stripped title-element text, else stripped first-h1 text,
else the synthesized timestamp string; with both a title Foo and an h1 Bar
the derived title is Foo. -/
theorem c2_title_cascade :
    (∀ pub doc reparse nowT html_content, pub.post_title = "" →
        (html_to_gutenberg_blocks pub doc reparse nowT html_content).1.post_title
          = derivedTitle doc nowT) ∧
    (∀ doc nowT t, doc.titleText? = some t → derivedTitle doc nowT = pyStrip t) ∧
    (∀ doc nowT t, doc.titleText? = none → doc.h1Text? = some t →
        derivedTitle doc nowT = pyStrip t) ∧
    (∀ doc nowT, doc.titleText? = none → doc.h1Text? = none →
        derivedTitle doc nowT = "Post from " ++ formatTime nowT) ∧
    (formatTime ⟨2026, 10, 12, 9, 5⟩ = "2026-10-12 09:05") ∧
    (∀ pub reparse nowT html_content, pub.post_title = "" →
        (html_to_gutenberg_blocks pub ⟨some "Foo", some "Bar", none⟩
            reparse nowT html_content).1.post_title = "Foo") := by
  refine ⟨?_, ?_, ?_, ?_, ?_, ?_⟩
  · intro pub doc reparse nowT html h
    simp [html_to_gutenberg_blocks, resolvePub, h]
  · intro doc nowT t h
    simp [derivedTitle, h]
  · intro doc nowT t h1 h2
    simp [derivedTitle, h1, h2]
  · intro doc nowT h1 h2
    simp [derivedTitle, h1, h2]
  · decide
  · intro pub reparse nowT html h
    have h1 : (html_to_gutenberg_blocks pub ⟨some "Foo", some "Bar", none⟩
        reparse nowT html).1.post_title = derivedTitle ⟨some "Foo", some "Bar", none⟩ nowT := by
      simp [html_to_gutenberg_blocks, resolvePub, h]
    rw [h1]
    simp only [derivedTitle]
    decide

/-- Witness for C2 at concrete inputs. -/
theorem c2_title_cascade_witness :
    (html_to_gutenberg_blocks ⟨"s", "u", "a", "draft", "", "", "url"⟩
        ⟨some "Foo", some "Bar", none⟩ (fun _ => []) ⟨2026, 1, 1, 0, 0⟩
        "<h1>Bar</h1>").1.post_title = "Foo" :=
  c2_title_cascade.2.2.2.2.2 ⟨"s", "u", "a", "draft", "", "", "url"⟩
    (fun _ => []) ⟨2026, 1, 1, 0, 0⟩ "<h1>Bar</h1>" rfl

/-- Claim C10: the title cascade advances on element absence, not on
emptiness of the extracted text: a present title element with
whitespace-only text yields the empty derived title without falling
through to the h1 or the timestamp, and a pre-supplied empty title enters
the cascade. -/
theorem c10_cascade_on_absence :
    (∀ pub doc reparse nowT html t, pub.post_title = "" → doc.titleText? = some t →
        pyStrip t = "" →
        (html_to_gutenberg_blocks pub doc reparse nowT html).1.post_title = "") ∧
    (∀ pub doc reparse nowT html, pub.post_title = "" →
        (html_to_gutenberg_blocks pub doc reparse nowT html).1.post_title
          = derivedTitle doc nowT) ∧
    (∀ pub reparse nowT html, pub.post_title = "" →
        (html_to_gutenberg_blocks pub ⟨some "   ", some "Bar", none⟩
            reparse nowT html).1.post_title = "") := by
  refine ⟨?_, ?_, ?_⟩
  · intro pub doc reparse nowT html t h1 h2 h3
    simp [html_to_gutenberg_blocks, resolvePub, h1, derivedTitle, h2, h3]
  · intro pub doc reparse nowT html h
    simp [html_to_gutenberg_blocks, resolvePub, h]
  · intro pub reparse nowT html h
    have h1 : (html_to_gutenberg_blocks pub ⟨some "   ", some "Bar", none⟩
        reparse nowT html).1.post_title = derivedTitle ⟨some "   ", some "Bar", none⟩ nowT := by
      simp [html_to_gutenberg_blocks, resolvePub, h]
    rw [h1]
    simp only [derivedTitle]
    decide

/-- Witness for C10 at a concrete empty title element. -/
theorem c10_cascade_on_absence_witness :
    (html_to_gutenberg_blocks ⟨"s", "u", "a", "draft", "", "", "url"⟩
        ⟨some " ", some "Bar", none⟩ (fun _ => []) ⟨2026, 1, 1, 0, 0⟩
        "<title> </title><h1>Bar</h1>").1.post_title = "" :=
  c10_cascade_on_absence.1 ⟨"s", "u", "a", "draft", "", "", "url"⟩
    ⟨some " ", some "Bar", none⟩ (fun _ => []) ⟨2026, 1, 1, 0, 0⟩
    "<title> </title><h1>Bar</h1>" " " rfl rfl (by decide)

/-- Claim C8: with the same inputs the emitted content is a deterministic
function of them; in particular it does not depend on the wall-clock
reading, and when a title is pre-supplied the whole result is independent
of the wall clock. -/
theorem c8_deterministic :
    (∀ pub doc reparse t1 t2 html_content, pub.post_title ≠ "" →
        html_to_gutenberg_blocks pub doc reparse t1 html_content
          = html_to_gutenberg_blocks pub doc reparse t2 html_content) ∧
    (∀ pub doc reparse t1 t2 html_content,
        (html_to_gutenberg_blocks pub doc reparse t1 html_content).2
          = (html_to_gutenberg_blocks pub doc reparse t2 html_content).2) := by
  constructor
  · intro pub doc reparse t1 t2 html h
    simp [html_to_gutenberg_blocks, resolvePub, h]
  · intro pub doc reparse t1 t2 html
    rfl

/-- Witness for C8 at concrete inputs. -/
theorem c8_deterministic_witness :
    html_to_gutenberg_blocks ⟨"s", "u", "a", "draft", "", "T", "url"⟩
        ⟨none, none, none⟩ (fun _ => []) ⟨2026, 1, 1, 0, 0⟩ "<p>x</p>"
      = html_to_gutenberg_blocks ⟨"s", "u", "a", "draft", "", "T", "url"⟩
        ⟨none, none, none⟩ (fun _ => []) ⟨2027, 2, 3, 4, 5⟩ "<p>x</p>" :=
  c8_deterministic.1 ⟨"s", "u", "a", "draft", "", "T", "url"⟩
    ⟨none, none, none⟩ (fun _ => []) ⟨2026, 1, 1, 0, 0⟩ ⟨2027, 2, 3, 4, 5⟩
    "<p>x</p>" (by decide)

/-- Counterexample to claim C9 as stated: with no pre-supplied title, a
conversion writes the post_title field of the publisher instance, so the
instance does not stay unchanged. -/
theorem c9_counterexample :
    (html_to_gutenberg_blocks ⟨"s", "u", "a", "draft", "", "", "url"⟩
        ⟨some "Foo", none, none⟩ (fun _ => []) ⟨2026, 1, 1, 0, 0⟩ "<p>x</p>").1
      ≠ ⟨"s", "u", "a", "draft", "", "", "url"⟩ := by
  decide

/-- Claim C9 as amended: conversion is pure given its inputs and the
current time, and the only instance field it may change is post_title,
written exactly when it was empty; every other field is unchanged, and
with a nonempty pre-supplied title the whole instance is unchanged. -/
theorem c9_frame :
    ∀ pub doc reparse nowT html_content,
      ((html_to_gutenberg_blocks pub doc reparse nowT html_content).1.site = pub.site) ∧
      ((html_to_gutenberg_blocks pub doc reparse nowT html_content).1.user = pub.user) ∧
      ((html_to_gutenberg_blocks pub doc reparse nowT html_content).1.app_pass = pub.app_pass) ∧
      ((html_to_gutenberg_blocks pub doc reparse nowT html_content).1.publish_status
        = pub.publish_status) ∧
      ((html_to_gutenberg_blocks pub doc reparse nowT html_content).1.html_file
        = pub.html_file) ∧
      ((html_to_gutenberg_blocks pub doc reparse nowT html_content).1.api_url = pub.api_url) ∧
      (pub.post_title ≠ "" →
        (html_to_gutenberg_blocks pub doc reparse nowT html_content).1 = pub) ∧
      (pub.post_title = "" →
        (html_to_gutenberg_blocks pub doc reparse nowT html_content).1
          = { pub with post_title := derivedTitle doc nowT }) := by
  intro pub doc reparse nowT html
  by_cases h : pub.post_title = "" <;>
    simp [html_to_gutenberg_blocks, resolvePub, h]

/-- Witness for C9 as amended, at a pre-supplied title. -/
theorem c9_frame_witness :
    (html_to_gutenberg_blocks ⟨"s", "u", "a", "draft", "", "T", "url"⟩
        ⟨none, none, none⟩ (fun _ => []) ⟨2026, 1, 1, 0, 0⟩ "x").1
      = ⟨"s", "u", "a", "draft", "", "T", "url"⟩ :=
  (c9_frame ⟨"s", "u", "a", "draft", "", "T", "url"⟩
    ⟨none, none, none⟩ (fun _ => []) ⟨2026, 1, 1, 0, 0⟩ "x").2.2.2.2.2.2.1 (by decide)

/-- A string append is nonempty when its left part is. -/
theorem append_ne_empty_left (s t : String) (h : s ≠ "") : s ++ t ≠ "" := by
  intro he
  have hd : (s ++ t).data = [] := by rw [he]
  rw [String.data_append] at hd
  have h2 : s.data = [] := (List.append_eq_nil.mp hd).1
  apply h
  cases s with
  | mk d => cases h2; rfl

/-- Every emitted block is a nonempty string. -/
theorem nodeBlock_some_ne (n : HNode) (b : String) (h : nodeBlock n = some b) : b ≠ "" := by
  cases n with
  | text s =>
    simp only [nodeBlock] at h
    split at h
    · exact absurd h (by simp)
    · obtain rfl := Option.some.inj h
      repeat apply append_ne_empty_left
      decide
  | elem tag r =>
    simp only [nodeBlock] at h
    repeat' split at h
    all_goals simp only [Option.some.injEq, reduceCtorEq] at h
    all_goals subst h
    all_goals repeat apply append_ne_empty_left
    all_goals decide

/-- The block list is never empty: the loop result or the fallback. -/
theorem blocksOf_ne_nil (doc : ParsedDoc) (reparse : String → List HNode)
    (html_content : String) : blocksOf doc reparse html_content ≠ [] := by
  simp only [blocksOf]
  split
  · simp
  · next h => exact h

/-- Every member of the block list is a nonempty string. -/
theorem blocksOf_mem_ne (doc : ParsedDoc) (reparse : String → List HNode)
    (html_content : String) :
    ∀ b ∈ blocksOf doc reparse html_content, b ≠ "" := by
  simp only [blocksOf]
  split
  · intro b hb
    simp only [List.mem_singleton] at hb
    subst hb
    repeat apply append_ne_empty_left
    decide
  · intro b hb
    obtain ⟨n, _, hn⟩ := List.mem_filterMap.mp hb
    exact nodeBlock_some_ne n b hn

/-- The join of a nonempty list of nonempty strings is nonempty. -/
theorem joinBlocks_ne_empty :
    ∀ bs : List String, bs ≠ [] → (∀ b ∈ bs, b ≠ "") → joinBlocks bs ≠ "" := by
  intro bs
  induction bs with
  | nil => intro h; exact absurd rfl h
  | cons b rest ih =>
    intro _ hmem
    cases rest with
    | nil => simpa [joinBlocks] using hmem b (by simp)
    | cons c r2 =>
      simp only [joinBlocks]
      exact append_ne_empty_left _ _ (append_ne_empty_left _ _ (hmem b (by simp)))

/-- Claim C5: the final content is the emitted blocks, in source order,
joined with exactly two newline characters between consecutive blocks. -/
theorem c5_join :
    (∀ pub doc reparse nowT html_content,
        (html_to_gutenberg_blocks pub doc reparse nowT html_content).2
          = joinBlocks (blocksOf doc reparse html_content)) ∧
    (∀ b, joinBlocks [b] = b) ∧
    (∀ b c rest, (joinBlocks (b :: c :: rest)).data
        = b.data ++ '\n' :: '\n' :: (joinBlocks (c :: rest)).data) ∧
    (∀ children, emitBlocks children = children.filterMap nodeBlock) := by
  refine ⟨?_, ?_, ?_, ?_⟩
  · intro pub doc reparse nowT html
    rfl
  · intro b
    rfl
  · intro b c rest
    simp [joinBlocks, String.data_append,
      show ("\n\n" : String).data = ['\n', '\n'] from by decide]
  · intro children
    rfl

/-- Claim C4: when the child loop emits nothing, the output is exactly one
raw-HTML fallback block wrapping the full cleaned content; the output is
never the empty string; and for the lone script-tag input the cleaned
content is empty and the output is one fallback block wrapping the empty
string. -/
theorem c4_fallback :
    (∀ doc reparse html_content,
        emitBlocks (reparse (workingContent doc html_content)) = [] →
        blocksOf doc reparse html_content
          = ["<!-- wp:html -->" ++ "\n" ++ workingContent doc html_content ++ "\n"
              ++ "<!-- /wp:html -->"]) ∧
    (clean_html "<script>alert(1)</script>" = "") ∧
    (∀ pub reparse nowT, reparse "" = [] →
        (html_to_gutenberg_blocks pub ⟨none, none, none⟩ reparse nowT
            "<script>alert(1)</script>").2
          = "<!-- wp:html -->" ++ "\n" ++ "" ++ "\n" ++ "<!-- /wp:html -->") ∧
    (∀ pub doc reparse nowT html_content,
        (html_to_gutenberg_blocks pub doc reparse nowT html_content).2 ≠ "") := by
  refine ⟨?_, ?_, ?_, ?_⟩
  · intro doc reparse html h
    simp [blocksOf, h]
  · decide
  · intro pub reparse nowT h
    have hwc : workingContent ⟨none, none, none⟩ "<script>alert(1)</script>" = "" := by
      decide
    have h1 : blocksOf ⟨none, none, none⟩ reparse "<script>alert(1)</script>"
        = ["<!-- wp:html -->" ++ "\n" ++ "" ++ "\n" ++ "<!-- /wp:html -->"] := by
      simp [blocksOf, hwc, h, emitBlocks]
    show joinBlocks (blocksOf ⟨none, none, none⟩ reparse "<script>alert(1)</script>") = _
    rw [h1]
    rfl
  · intro pub doc reparse nowT html
    exact joinBlocks_ne_empty _ (blocksOf_ne_nil doc reparse html)
      (blocksOf_mem_ne doc reparse html)

/-- Witness for C4 at a concrete empty re-parse. -/
theorem c4_fallback_witness :
    (html_to_gutenberg_blocks ⟨"s", "u", "a", "draft", "", "T", "url"⟩ ⟨none, none, none⟩
        (fun _ => []) ⟨2026, 1, 1, 0, 0⟩ "<script>alert(1)</script>").2
      = "<!-- wp:html -->" ++ "\n" ++ "" ++ "\n" ++ "<!-- /wp:html -->" :=
  c4_fallback.2.2.1 ⟨"s", "u", "a", "draft", "", "T", "url"⟩ (fun _ => [])
    ⟨2026, 1, 1, 0, 0⟩ rfl

/-- Claim C6: on every input, also malformed ones, the embedded converter
is a total function: the result is the join of a nonempty block list, and
in the worst case the whole cleaned content is swallowed into the single
fallback block. -/
theorem c6_total :
    ∀ pub doc reparse nowT html_content,
      (html_to_gutenberg_blocks pub doc reparse nowT html_content).2
        = joinBlocks (blocksOf doc reparse html_content) ∧
      blocksOf doc reparse html_content ≠ [] ∧
      (emitBlocks (reparse (workingContent doc html_content)) = [] →
        (html_to_gutenberg_blocks pub doc reparse nowT html_content).2
          = "<!-- wp:html -->" ++ "\n" ++ workingContent doc html_content ++ "\n"
            ++ "<!-- /wp:html -->") := by
  intro pub doc reparse nowT html
  refine ⟨rfl, blocksOf_ne_nil doc reparse html, ?_⟩
  intro h
  have h1 : blocksOf doc reparse html
      = ["<!-- wp:html -->" ++ "\n" ++ workingContent doc html ++ "\n"
          ++ "<!-- /wp:html -->"] := by
    simp [blocksOf, h]
  show joinBlocks (blocksOf doc reparse html) = _
  rw [h1]
  rfl

/-- Witness for C6 at a concrete input. -/
theorem c6_total_witness :
    (html_to_gutenberg_blocks ⟨"s", "u", "a", "draft", "", "T", "url"⟩ ⟨none, none, none⟩
        (fun _ => []) ⟨2026, 1, 1, 0, 0⟩ "<oops").2
      = "<!-- wp:html -->" ++ "\n"
        ++ workingContent ⟨none, none, none⟩ "<oops" ++ "\n" ++ "<!-- /wp:html -->" :=
  (c6_total ⟨"s", "u", "a", "draft", "", "T", "url"⟩ ⟨none, none, none⟩
    (fun _ => []) ⟨2026, 1, 1, 0, 0⟩ "<oops").2.2 rfl

/-- Peeling the first line: dropping through the first newline of a
newline-free prefix followed by a newline. -/
theorem afterFirstNl_append (xs ys : List Char) (h : '\n' ∉ xs) :
    afterFirstNl (xs ++ '\n' :: ys) = ys := by
  induction xs with
  | nil => simp [afterFirstNl]
  | cons c t ih =>
    simp only [List.mem_cons, not_or] at h
    have hc : c ≠ '\n' := fun hh => h.1 hh.symm
    simp [afterFirstNl, hc, ih h.2]

/-- Peeling the last line: dropping from the last newline on, when the
suffix after it is newline-free. -/
theorem beforeLastNl_append (xs ys : List Char) (h : '\n' ∉ ys) :
    beforeLastNl (xs ++ '\n' :: ys) = xs := by
  unfold beforeLastNl
  rw [List.reverse_append, List.reverse_cons, List.append_assoc, List.singleton_append,
    afterFirstNl_append _ _ (by simpa using h), List.reverse_reverse]

/-- Peeling both marker lines of a block recovers the middle line. -/
theorem core_of_wrapped (m1 mid m2 : String) (h1 : '\n' ∉ m1.data) (h2 : '\n' ∉ m2.data) :
    beforeLastNl (afterFirstNl (m1 ++ "\n" ++ mid ++ "\n" ++ m2).data) = mid.data := by
  have hd : (m1 ++ "\n" ++ mid ++ "\n" ++ m2).data
      = m1.data ++ '\n' :: (mid.data ++ '\n' :: m2.data) := by
    simp [String.data_append, show ("\n" : String).data = ['\n'] from by decide]
  rw [hd, afterFirstNl_append _ _ h1, beforeLastNl_append _ _ h2]

/-- Removing an exact wrapper present at both ends. -/
theorem stripWrap_eq (a b m : List Char) : stripWrap a b (a ++ m ++ b) = m := by
  have hlen : (a ++ m ++ b).length = a.length + m.length + b.length := by
    simp only [List.length_append]
  unfold stripWrap
  rw [if_pos]
  · have hd : (a ++ m ++ b).drop a.length = m ++ b := by
      rw [List.append_assoc]
      exact List.drop_left a (m ++ b)
    rw [hd, hlen]
    have he : a.length + m.length + b.length - a.length - b.length = m.length := by omega
    rw [he]
    exact List.take_left m b
  · refine ⟨?_, ?_, ?_⟩
    · rw [List.append_assoc]
      exact List.take_left' rfl
    · rw [hlen]
      have he : a.length + m.length + b.length - b.length = (a ++ m).length := by
        simp [List.length_append]
      rw [he]
      exact List.drop_left (a ++ m) b
    · omega

/-- Extraction from a non-image, non-table block: peeling the markers
recovers the middle line. -/
theorem blockInner_wrapped (m1 mid m2 : String)
    (h1 : '\n' ∉ m1.data) (h2 : '\n' ∉ m2.data) (hlen : 13 ≤ m1.data.length)
    (him : m1.data.take 13 ≠ ("<!-- wp:image" : String).data)
    (htb : m1.data.take 13 ≠ ("<!-- wp:table" : String).data) :
    blockInner (m1 ++ "\n" ++ mid ++ "\n" ++ m2) = mid := by
  have hd : (m1 ++ "\n" ++ mid ++ "\n" ++ m2).data
      = m1.data ++ '\n' :: (mid.data ++ '\n' :: m2.data) := by
    simp [String.data_append, show ("\n" : String).data = ['\n'] from by decide]
  have htake : (m1 ++ "\n" ++ mid ++ "\n" ++ m2).data.take 13 = m1.data.take 13 := by
    rw [hd]
    exact List.take_append_of_le_length hlen
  have hcore : beforeLastNl (afterFirstNl (m1 ++ "\n" ++ mid ++ "\n" ++ m2).data) = mid.data :=
    core_of_wrapped m1 mid m2 h1 h2
  simp only [blockInner]
  rw [htake, if_neg him, if_neg htb, hcore]

/-- Extraction from an image block: peeling the markers and the figure
container recovers the image markup. -/
theorem blockInner_image (r : String) :
    blockInner ("<!-- wp:image -->" ++ "\n"
      ++ ("<figure class=\"wp-block-image\">" ++ r ++ "</figure>")
      ++ "\n" ++ "<!-- /wp:image -->") = r := by
  have hd : (("<!-- wp:image -->" : String) ++ "\n"
      ++ ("<figure class=\"wp-block-image\">" ++ r ++ "</figure>")
      ++ "\n" ++ "<!-- /wp:image -->").data
      = ("<!-- wp:image -->" : String).data
        ++ '\n' :: ((("<figure class=\"wp-block-image\">" : String) ++ r
            ++ "</figure>").data ++ '\n' :: ("<!-- /wp:image -->" : String).data) := by
    simp [String.data_append, show ("\n" : String).data = ['\n'] from by decide]
  have htake : (("<!-- wp:image -->" : String) ++ "\n"
      ++ ("<figure class=\"wp-block-image\">" ++ r ++ "</figure>")
      ++ "\n" ++ "<!-- /wp:image -->").data.take 13 = ("<!-- wp:image" : String).data := by
    rw [hd]
    rw [List.take_append_of_le_length (by decide)]
    decide
  have hcore : beforeLastNl (afterFirstNl (("<!-- wp:image -->" : String) ++ "\n"
      ++ ("<figure class=\"wp-block-image\">" ++ r ++ "</figure>")
      ++ "\n" ++ "<!-- /wp:image -->").data)
      = (("<figure class=\"wp-block-image\">" : String) ++ r ++ "</figure>").data :=
    core_of_wrapped _ _ _ (by decide) (by decide)
  have hmid : (("<figure class=\"wp-block-image\">" : String) ++ r ++ "</figure>").data
      = ("<figure class=\"wp-block-image\">" : String).data ++ r.data
        ++ ("</figure>" : String).data := by
    simp [String.data_append]
  simp only [blockInner]
  rw [htake, if_pos rfl, hcore, hmid, stripWrap_eq]

/-- Extraction from a table block: peeling the markers and the figure
container recovers the table markup. -/
theorem blockInner_table (r : String) :
    blockInner ("<!-- wp:table -->" ++ "\n"
      ++ ("<figure class=\"wp-block-table\">" ++ r ++ "</figure>")
      ++ "\n" ++ "<!-- /wp:table -->") = r := by
  have hd : (("<!-- wp:table -->" : String) ++ "\n"
      ++ ("<figure class=\"wp-block-table\">" ++ r ++ "</figure>")
      ++ "\n" ++ "<!-- /wp:table -->").data
      = ("<!-- wp:table -->" : String).data
        ++ '\n' :: ((("<figure class=\"wp-block-table\">" : String) ++ r
            ++ "</figure>").data ++ '\n' :: ("<!-- /wp:table -->" : String).data) := by
    simp [String.data_append, show ("\n" : String).data = ['\n'] from by decide]
  have htake : (("<!-- wp:table -->" : String) ++ "\n"
      ++ ("<figure class=\"wp-block-table\">" ++ r ++ "</figure>")
      ++ "\n" ++ "<!-- /wp:table -->").data.take 13 = ("<!-- wp:table" : String).data := by
    rw [hd]
    rw [List.take_append_of_le_length (by decide)]
    decide
  have hcore : beforeLastNl (afterFirstNl (("<!-- wp:table -->" : String) ++ "\n"
      ++ ("<figure class=\"wp-block-table\">" ++ r ++ "</figure>")
      ++ "\n" ++ "<!-- /wp:table -->").data)
      = (("<figure class=\"wp-block-table\">" : String) ++ r ++ "</figure>").data :=
    core_of_wrapped _ _ _ (by decide) (by decide)
  have hmid : (("<figure class=\"wp-block-table\">" : String) ++ r ++ "</figure>").data
      = ("<figure class=\"wp-block-table\">" : String).data ++ r.data
        ++ ("</figure>" : String).data := by
    simp [String.data_append]
  simp only [blockInner]
  rw [htake]
  rw [if_neg (by decide), if_pos rfl, hcore, hmid, stripWrap_eq]

/-- Counterexample to claim C7 as stated: a bare text node with
surrounding whitespace is not recovered unchanged inside the generated
paragraph element; its text comes back trimmed, and a whitespace-only
text node yields no block at all. -/
theorem c7_counterexample :
    nodeBlock (HNode.text " hi ")
      = some ("<!-- wp:paragraph -->" ++ "\n" ++ ("<p>" ++ "hi" ++ "</p>") ++ "\n"
          ++ "<!-- /wp:paragraph -->") ∧
    blockInner ("<!-- wp:paragraph -->" ++ "\n" ++ ("<p>" ++ "hi" ++ "</p>") ++ "\n"
          ++ "<!-- /wp:paragraph -->") ≠ "<p>" ++ " hi " ++ "</p>" ∧
    nodeBlock (HNode.text " ") = none := by
  decide

/-- Claim C7 as amended: re-parsing an emitted block and extracting the
inner markup recovers each element child exactly as serialised, only the
marker lines and, for images and tables, the figure container being
stripped; a bare text node is recovered as its whitespace-trimmed text
wrapped in a generated paragraph element (whitespace-only text nodes
yield no block). -/
theorem c7_roundtrip :
    (∀ s b, nodeBlock (HNode.text s) = some b →
        blockInner b = "<p>" ++ pyStrip s ++ "</p>") ∧
    (∀ tag r b, nodeBlock (HNode.elem tag r) = some b → blockInner b = r) := by
  constructor
  · intro s b h
    simp only [nodeBlock] at h
    split at h
    · exact Option.noConfusion h
    · obtain rfl := Option.some.inj h
      exact blockInner_wrapped _ _ _ (by decide) (by decide) (by decide) (by decide) (by decide)
  · intro tag r b h
    simp only [nodeBlock] at h
    by_cases h0 : tag = ""
    · rw [if_pos h0] at h
      exact Option.noConfusion h
    rw [if_neg h0] at h
    by_cases h1 : tag = "h1" ∨ tag = "h2" ∨ tag = "h3" ∨ tag = "h4" ∨ tag = "h5" ∨ tag = "h6"
    · rw [if_pos h1] at h
      obtain rfl := Option.some.inj h
      rcases h1 with rfl | rfl | rfl | rfl | rfl | rfl <;>
        exact blockInner_wrapped _ _ _ (by decide) (by decide) (by decide) (by decide) (by decide)
    rw [if_neg h1] at h
    by_cases h2 : tag = "p"
    · rw [if_pos h2] at h
      obtain rfl := Option.some.inj h
      exact blockInner_wrapped _ _ _ (by decide) (by decide) (by decide) (by decide) (by decide)
    rw [if_neg h2] at h
    by_cases h3 : tag = "img"
    · rw [if_pos h3] at h
      obtain rfl := Option.some.inj h
      exact blockInner_image r
    rw [if_neg h3] at h
    by_cases h4 : tag = "ul" ∨ tag = "ol"
    · rw [if_pos h4] at h
      obtain rfl := Option.some.inj h
      exact blockInner_wrapped _ _ _ (by decide) (by decide) (by decide) (by decide) (by decide)
    rw [if_neg h4] at h
    by_cases h5 : tag = "blockquote"
    · rw [if_pos h5] at h
      obtain rfl := Option.some.inj h
      exact blockInner_wrapped _ _ _ (by decide) (by decide) (by decide) (by decide) (by decide)
    rw [if_neg h5] at h
    by_cases h6 : tag = "pre"
    · rw [if_pos h6] at h
      obtain rfl := Option.some.inj h
      exact blockInner_wrapped _ _ _ (by decide) (by decide) (by decide) (by decide) (by decide)
    rw [if_neg h6] at h
    by_cases h7 : tag = "table"
    · rw [if_pos h7] at h
      obtain rfl := Option.some.inj h
      exact blockInner_table r
    rw [if_neg h7] at h
    obtain rfl := Option.some.inj h
    exact blockInner_wrapped _ _ _ (by decide) (by decide) (by decide) (by decide) (by decide)

/-- Witness for C7 as amended, at a concrete image child. -/
theorem c7_roundtrip_witness :
    blockInner ("<!-- wp:image -->" ++ "\n"
        ++ ("<figure class=\"wp-block-image\">" ++ "<img src=\"a.png\"/>" ++ "</figure>")
        ++ "\n" ++ "<!-- /wp:image -->") = "<img src=\"a.png\"/>" :=
  c7_roundtrip.2 "img" "<img src=\"a.png\"/>"
    ("<!-- wp:image -->" ++ "\n"
      ++ ("<figure class=\"wp-block-image\">" ++ "<img src=\"a.png\"/>" ++ "</figure>")
      ++ "\n" ++ "<!-- /wp:image -->") (by decide)

/-- Appending after a list that contains a closing angle bracket does not
change the first hit. -/
theorem findGt_append_left (l ys : List Char) (i : Nat) (h : findGt l = some i) :
    findGt (l ++ ys) = some i := by
  induction l generalizing i with
  | nil => simp [findGt] at h
  | cons c t ih =>
    show findGt (c :: (t ++ ys)) = some i
    simp only [findGt] at h ⊢
    by_cases hc : c = '>'
    · rwa [if_pos hc] at h ⊢
    · rw [if_neg hc] at h ⊢
      obtain ⟨j, hj, rfl⟩ := Option.map_eq_some'.mp h
      rw [ih j hj]
      rfl

/-- The first closing angle bracket lies inside the list. -/
theorem findGt_lt (l : List Char) (i : Nat) (h : findGt l = some i) : i < l.length := by
  induction l generalizing i with
  | nil => simp [findGt] at h
  | cons c t ih =>
    simp only [findGt] at h
    by_cases hc : c = '>'
    · rw [if_pos hc] at h
      obtain rfl := Option.some.inj h
      simp
    · rw [if_neg hc] at h
      obtain ⟨j, hj, rfl⟩ := Option.map_eq_some'.mp h
      have := ih j hj
      simp only [List.length_cons]
      omega

/-- A list containing a closing angle bracket gives findGt a hit. -/
theorem findGt_of_mem (l : List Char) (h : '>' ∈ l) : ∃ i, findGt l = some i := by
  induction l with
  | nil => simp at h
  | cons c t ih =>
    by_cases hc : c = '>'
    · exact ⟨0, by simp [findGt, hc]⟩
    · have ht : '>' ∈ t := by
        rcases List.mem_cons.mp h with h1 | h1
        · exact absurd h1.symm hc
        · exact h1
      obtain ⟨i, hi⟩ := ih ht
      exact ⟨i + 1, by simp [findGt, hc, hi]⟩

/-- Scanning a prefix without a closing angle bracket, the hit is the
bracket right after it. -/
theorem findGt_not_mem (xs rest : List Char) (h : '>' ∉ xs) :
    findGt (xs ++ '>' :: rest) = some xs.length := by
  induction xs with
  | nil => simp [findGt]
  | cons c t ih =>
    simp only [List.mem_cons, not_or] at h
    have hc : c ≠ '>' := fun hh => h.1 hh.symm
    simp [findGt, hc, ih h.2]

/-- Appending after a list that contains a closing angle bracket does not
change the body[^>]*> match, and any match fits inside the list. -/
theorem bodyAfter_append (l ys : List Char) (h : '>' ∈ l) :
    bodyAfter (l ++ ys) = bodyAfter l ∧ ∀ n, bodyAfter l = some n → n ≤ l.length := by
  by_cases hlen : 4 ≤ l.length
  · have htake : (l ++ ys).take 4 = l.take 4 := List.take_append_of_le_length hlen
    by_cases hcond : (l.take 4).map Char.toLower = ['b', 'o', 'd', 'y']
    · have hnot : '>' ∉ l.take 4 := by
        intro hmem
        have hm2 : Char.toLower '>' ∈ (l.take 4).map Char.toLower :=
          List.mem_map_of_mem _ hmem
        rw [hcond, show Char.toLower '>' = '>' from by decide] at hm2
        exact absurd hm2 (by decide)
      have hdropm : '>' ∈ l.drop 4 := by
        rw [← List.take_append_drop 4 l] at h
        rcases List.mem_append.mp h with h1 | h1
        · exact absurd h1 hnot
        · exact h1
      obtain ⟨i, hi⟩ := findGt_of_mem _ hdropm
      have hlt := findGt_lt _ _ hi
      have hgdrop : (l ++ ys).drop 4 = l.drop 4 ++ ys := List.drop_append_of_le_length hlen
      constructor
      · simp only [bodyAfter, htake, if_pos hcond]
        rw [hgdrop, findGt_append_left _ _ _ hi, hi]
      · intro n hn
        simp only [bodyAfter, if_pos hcond] at hn
        rw [hi] at hn
        obtain ⟨j, hj, rfl⟩ := Option.map_eq_some'.mp hn
        obtain rfl := Option.some.inj hj
        simp only [List.length_drop] at hlt
        omega
    · constructor
      · simp only [bodyAfter, htake]
        rw [if_neg hcond, if_neg hcond]
      · intro n hn
        simp only [bodyAfter, if_neg hcond] at hn
        exact absurd hn (by simp)
  · have hcondl : ¬((l.take 4).map Char.toLower = ['b', 'o', 'd', 'y']) := by
      intro hc
      have hl := congrArg List.length hc
      simp only [List.length_map, List.length_take, List.length_cons, List.length_nil] at hl
      omega
    have hcondly : ¬(((l ++ ys).take 4).map Char.toLower = ['b', 'o', 'd', 'y']) := by
      intro hc
      have hmem : '>' ∈ (l ++ ys).take 4 := by
        rw [List.take_append_eq_append_take,
          List.take_of_length_le (by omega : l.length ≤ 4)]
        exact List.mem_append_left _ h
      have hm2 : Char.toLower '>' ∈ ((l ++ ys).take 4).map Char.toLower :=
        List.mem_map_of_mem _ hmem
      rw [hc, show Char.toLower '>' = '>' from by decide] at hm2
      exact absurd hm2 (by decide)
    constructor
    · simp only [bodyAfter]
      rw [if_neg hcondly, if_neg hcondl]
    · intro n hn
      simp only [bodyAfter, if_neg hcondl] at hn
      exact absurd hn (by simp)


/-- Reduction of the body-tag matcher at a slash form. -/
theorem bodyTagLen_slash (X : List Char) :
    bodyTagLen ('<' :: '/' :: X) = (bodyAfter X).map (fun i => 2 + i) := by
  simp [bodyTagLen]

/-- Reduction of the body-tag matcher at a non-slash form. -/
theorem bodyTagLen_noslash (d : Char) (X : List Char) (hd : d ≠ '/') :
    bodyTagLen ('<' :: d :: X) = (bodyAfter (d :: X)).map (fun i => 1 + i) := by
  simp [bodyTagLen, hd]

/-- Reduction of the body-tag matcher away from an opening bracket. -/
theorem bodyTagLen_not_lt (c : Char) (X : List Char) (hc : c ≠ '<') :
    bodyTagLen (c :: X) = none := by
  simp [bodyTagLen, hc]

/-- Appending after a chunk whose opening bracket is closed inside it does
not change the body-tag match at its head, and any match fits inside the
chunk. -/
theorem bodyTagLen_append (c : Char) (t ys : List Char)
    (hok : c = '<' → '>' ∈ c :: t) :
    bodyTagLen ((c :: t) ++ ys) = bodyTagLen (c :: t)
      ∧ ∀ n, bodyTagLen (c :: t) = some n → n ≤ (c :: t).length := by
  by_cases hc : c = '<'
  · subst hc
    have hgt : '>' ∈ '<' :: t := hok rfl
    have hgt' : '>' ∈ t := by
      rcases List.mem_cons.mp hgt with h1 | h1
      · exact absurd h1 (by decide)
      · exact h1
    cases t with
    | nil => simp at hgt'
    | cons d t2 =>
      by_cases hd : d = '/'
      · subst hd
        have hgt2 : '>' ∈ t2 := by
          rcases List.mem_cons.mp hgt' with h1 | h1
          · exact absurd h1 (by decide)
          · exact h1
        obtain ⟨ha, hb⟩ := bodyAfter_append t2 ys hgt2
        constructor
        · show bodyTagLen ('<' :: '/' :: (t2 ++ ys)) = bodyTagLen ('<' :: '/' :: t2)
          rw [bodyTagLen_slash, bodyTagLen_slash, ha]
        · intro n hn
          rw [bodyTagLen_slash] at hn
          obtain ⟨i, hi, rfl⟩ := Option.map_eq_some'.mp hn
          have := hb i hi
          simp only [List.length_cons]
          omega
      · obtain ⟨ha, hb⟩ := bodyAfter_append (d :: t2) ys hgt'
        constructor
        · show bodyTagLen ('<' :: d :: (t2 ++ ys)) = bodyTagLen ('<' :: d :: t2)
          rw [bodyTagLen_noslash d _ hd, bodyTagLen_noslash d _ hd]
          rw [show d :: (t2 ++ ys) = (d :: t2) ++ ys from rfl, ha]
        · intro n hn
          rw [bodyTagLen_noslash d _ hd] at hn
          obtain ⟨i, hi, rfl⟩ := Option.map_eq_some'.mp hn
          have := hb i hi
          simp only [List.length_cons] at this ⊢
          omega
  · constructor
    · show bodyTagLen (c :: (t ++ ys)) = bodyTagLen (c :: t)
      rw [bodyTagLen_not_lt c _ hc, bodyTagLen_not_lt c _ hc]
    · intro n hn
      rw [bodyTagLen_not_lt c _ hc] at hn
      exact Option.noConfusion hn

/-- The well-formedness of a chunk, read off at its head. -/
theorem innerOK_cons (c : Char) (t : List Char) (h : innerOK (c :: t) = true) :
    (c = '<' → '>' ∈ c :: t) ∧ innerOK t = true := by
  simp only [innerOK, Bool.and_eq_true] at h
  refine ⟨?_, h.2⟩
  intro hc
  have h1 := h.1
  rw [if_pos hc] at h1
  exact of_decide_eq_true h1

/-- Well-formedness is preserved by dropping a prefix. -/
theorem innerOK_drop (n : Nat) (l : List Char) (h : innerOK l = true) :
    innerOK (l.drop n) = true := by
  induction n generalizing l with
  | zero => simpa using h
  | succ m ih =>
    cases l with
    | nil => simpa using h
    | cons c t =>
      have h2 := (innerOK_cons c t h).2
      simpa using ih t h2

/-- The body-tag scan distributes over an append when the left part is
well formed: no match can span the boundary. -/
theorem reSub_body_split :
    ∀ N xs ys, xs.length ≤ N → innerOK xs = true →
      reSub bodyTagLen (xs ++ ys) = reSub bodyTagLen xs ++ reSub bodyTagLen ys := by
  intro N
  induction N with
  | zero =>
    intro xs ys h1 _
    have hx : xs = [] := List.length_eq_zero.mp (Nat.le_zero.mp h1)
    subst hx
    simp [reSub, subAux]
  | succ N ih =>
    intro xs ys h1 h2
    cases xs with
    | nil => simp [reSub, subAux]
    | cons c t =>
      obtain ⟨hok, ht⟩ := innerOK_cons c t h2
      obtain ⟨heq, hbound⟩ := bodyTagLen_append c t ys hok
      simp only [List.length_cons] at h1
      cases hm : bodyTagLen (c :: t) with
      | none =>
        have hm2 : bodyTagLen (c :: (t ++ ys)) = none := by
          rw [show c :: (t ++ ys) = (c :: t) ++ ys from rfl, heq]
          exact hm
        rw [show (c :: t) ++ ys = c :: (t ++ ys) from rfl]
        rw [reSub_cons_none _ _ _ hm2, reSub_cons_none _ _ _ hm]
        rw [ih t ys (by omega) ht]
        rfl
      | some n =>
        have hn1 : 1 ≤ n := bodyTagLen_pos _ _ hm
        have hn2 : n ≤ (c :: t).length := hbound n hm
        have hm2 : bodyTagLen (c :: (t ++ ys)) = some n := by
          rw [show c :: (t ++ ys) = (c :: t) ++ ys from rfl, heq]
          exact hm
        rw [show (c :: t) ++ ys = c :: (t ++ ys) from rfl]
        rw [reSub_cons_some bodyTagLen bodyTagLen_pos c (t ++ ys) n hm2]
        rw [reSub_cons_some bodyTagLen bodyTagLen_pos c t n hm]
        have hdrop : (c :: (t ++ ys)).drop n = (c :: t).drop n ++ ys := by
          rw [show c :: (t ++ ys) = (c :: t) ++ ys from rfl]
          exact List.drop_append_of_le_length hn2
        rw [hdrop]
        apply ih
        · simp only [List.length_drop, List.length_cons]
          omega
        · exact innerOK_drop n (c :: t) h2

/-- The body open tag, with an attribute text free of closing brackets,
matches as exactly its own length. -/
theorem bodyTagLen_open (attrs rest : List Char) (h : '>' ∉ attrs) :
    bodyTagLen ('<' :: 'b' :: 'o' :: 'd' :: 'y' :: (attrs ++ '>' :: rest))
      = some (6 + attrs.length) := by
  rw [bodyTagLen_noslash 'b' _ (by decide)]
  have hb : bodyAfter ('b' :: 'o' :: 'd' :: 'y' :: (attrs ++ '>' :: rest))
      = some (4 + attrs.length + 1) := by
    simp only [bodyAfter]
    rw [show (('b' :: 'o' :: 'd' :: 'y' :: (attrs ++ '>' :: rest)).take 4).map Char.toLower
        = ['b', 'o', 'd', 'y'] from by
      rw [show ('b' :: 'o' :: 'd' :: 'y' :: (attrs ++ '>' :: rest)).take 4
          = ['b', 'o', 'd', 'y'] from rfl]
      decide]
    rw [if_pos rfl]
    rw [show ('b' :: 'o' :: 'd' :: 'y' :: (attrs ++ '>' :: rest)).drop 4
        = attrs ++ '>' :: rest from rfl]
    rw [findGt_not_mem attrs rest h]
    rfl
  rw [hb]
  simp only [Option.map_some', Option.some.injEq]
  omega

/-- Removing body tags from the serialised body element gives the same
result as removing them from its inner markup alone: with a well-formed
inner markup, the scan removes exactly the open and close tags. -/
theorem reSub_body_render (b : BodyElem) (hattrs : '>' ∉ b.attrs.data)
    (hin : innerOK b.inner.data = true) :
    reSub bodyTagLen (b.render).data = reSub bodyTagLen b.inner.data := by
  have hclose : reSub bodyTagLen (("</body>" : String).data) = [] := by decide
  have hd : (b.render).data = '<' :: 'b' :: 'o' :: 'd' :: 'y'
      :: (b.attrs.data ++ '>' :: (b.inner.data ++ ("</body>" : String).data)) := by
    simp [BodyElem.render, String.data_append,
      show ("<body" : String).data = ['<', 'b', 'o', 'd', 'y'] from by decide,
      show (">" : String).data = ['>'] from by decide]
  rw [hd]
  have hopen := bodyTagLen_open b.attrs.data
    (b.inner.data ++ ("</body>" : String).data) hattrs
  rw [reSub_cons_some bodyTagLen bodyTagLen_pos _ _ _ hopen]
  have hdrop : ('<' :: 'b' :: 'o' :: 'd' :: 'y'
      :: (b.attrs.data ++ '>' :: (b.inner.data ++ ("</body>" : String).data))).drop
        (6 + b.attrs.data.length)
      = b.inner.data ++ ("</body>" : String).data := by
    have hsplit : '<' :: 'b' :: 'o' :: 'd' :: 'y'
        :: (b.attrs.data ++ '>' :: (b.inner.data ++ ("</body>" : String).data))
        = ('<' :: 'b' :: 'o' :: 'd' :: 'y' :: (b.attrs.data ++ ['>']))
          ++ (b.inner.data ++ ("</body>" : String).data) := by
      simp [List.append_assoc]
    rw [hsplit]
    apply List.drop_left'
    simp only [List.length_cons, List.length_append, List.length_singleton,
      List.length_nil]
    omega
  rw [hdrop]
  rw [reSub_body_split b.inner.data.length b.inner.data _ (le_refl _) hin]
  rw [hclose]
  simp

/-- Claim C3: the working content is the cleaned selection: the serialised
body element when one exists (equivalently, under well-formed serialised
markup, its inner markup), otherwise the whole input; cleaning removes
literal body tags, removes whole script elements case-insensitively and
across lines, leaves style elements untouched, and trims whitespace. -/
theorem c3_content_cleaning :
    (∀ doc html_content b, doc.body? = some b → '>' ∉ b.attrs.data →
        innerOK b.inner.data = true →
        workingContent doc html_content = workingContentSpec doc html_content) ∧
    (∀ doc html_content, doc.body? = none →
        workingContent doc html_content = clean_html html_content ∧
        workingContent doc html_content = workingContentSpec doc html_content) ∧
    (clean_html "<body class=\"x\">hi</body>" = "hi") ∧
    (clean_html "a<SCRIPT type=\"demo\">\nxx\n</ScRiPt>b" = "ab") ∧
    (clean_html "<style>p \x7bcolor:red\x7d</style>"
      = "<style>p \x7bcolor:red\x7d</style>") ∧
    (clean_html "  <p>x</p>\n" = "<p>x</p>") := by
  refine ⟨?_, ?_, ?_, ?_, ?_, ?_⟩
  · intro doc html b hb hattrs hin
    simp only [workingContent, workingContentSpec, clean_html, hb]
    rw [reSub_body_render b hattrs hin]
  · intro doc html hb
    constructor <;> simp [workingContent, workingContentSpec, clean_html, hb]
  · decide
  · decide
  · decide
  · decide

/-- Witness for C3 at a concrete body element. -/
theorem c3_content_cleaning_witness :
    workingContent ⟨none, none, some ⟨" class=\"x\"", "<p>hi</p>"⟩⟩ "unused"
      = workingContentSpec ⟨none, none, some ⟨" class=\"x\"", "<p>hi</p>"⟩⟩ "unused" :=
  c3_content_cleaning.1 ⟨none, none, some ⟨" class=\"x\"", "<p>hi</p>"⟩⟩ "unused"
    ⟨" class=\"x\"", "<p>hi</p>"⟩ rfl (by decide) (by decide)
